import Mathlib

/-
  Verification of the TimesheetHelper engine (src/app.py).

  Shallow embedding conventions:
  * Python `str` is modelled as Lean `String`; character-level work happens on
    `String.data` (a `List Char`).
  * Python `int` is modelled as `Int` (arbitrary precision, as in Python).
    Python floor division `//` and `%` with a positive divisor coincide with
    Lean's `Int` division and modulus, which is how they are used below.
  * Python `datetime.date` is modelled by its proleptic-Gregorian ordinal
    (`date.toordinal()`), an `Int`; `date.weekday()` is `(ordinal - 1) % 7`
    because ordinal 1 (0001-01-01) is a Monday, and `timedelta(days = k)`
    arithmetic is ordinal addition.
  * Python `datetime.time` values as produced by `strptime("%H:%M")` are
    modelled by `PyTime` (hour and minute).
  * Python `float` hour values are modelled by exact rationals `ℚ`; `round(x, 2)`
    is modelled by round-half-even at the second decimal (`round2` below).  Every
    hour value reachable in `build_week_overview` is `k/60` or a 2-decimal value,
    so no decimal tie ever arises and the binary-float artefacts of Python's
    `round` are not observable at the inputs used in the theorems below.
  * Fallible Python code (raising `ValueError`/`TypeError`/`KeyError`) is
    modelled with `Option`/`Except`.
  * Python `dict` (insertion-ordered, unique keys) is modelled by association
    lists with the operations `alGet?`, `alInsert` (update in place or append)
    and `alSetdefault`, mirroring `d[k]`, `d[k] = v` and `d.setdefault`.
-/

/-! ### Decimal digit strings (Python `str`/`int` conversions) -/

/-- Digits of a natural number, most significant first; the first argument is
fuel, always sufficient when it exceeds the number of digits. -/
def natToCharsAux : Nat → Nat → List Char
  | 0, _ => []
  | fuel + 1, n =>
    if n < 10 then [Nat.digitChar n]
    else natToCharsAux fuel (n / 10) ++ [Nat.digitChar (n % 10)]

/-- Decimal representation of a natural number (`str` on a nonnegative int). -/
def natToChars (n : Nat) : List Char := natToCharsAux (n + 1) n

/-- Model of Python `str` on an `int`. -/
def intToChars (n : Int) : List Char :=
  if n < 0 then '-' :: natToChars n.natAbs else natToChars n.toNat

/-- Numeric value of a decimal digit character. -/
def digVal (c : Char) : Nat := c.toNat - 48

/-- Value of a nonempty all-digit character list; `none` otherwise.  Together
with the sign handling in `pyIntParse` this models Python `int(s)` on the
canonical decimal strings that arise in this code base (Python additionally
accepts surrounding whitespace and underscores between digits; those inputs
never occur here because payload values are stripped first). -/
def parseNatDigits (cs : List Char) : Option Nat :=
  if cs.isEmpty then none
  else if cs.all Char.isDigit then some (cs.foldl (fun a c => a * 10 + digVal c) 0)
  else none

/-- Model of Python `int(s)` on a stripped string. -/
def pyIntParse (cs : List Char) : Option Int :=
  match cs with
  | [] => none
  | c :: rest =>
    if c = '-' then (parseNatDigits rest).map (fun n => -(n : Int))
    else if c = '+' then (parseNatDigits rest).map (fun n => (n : Int))
    else (parseNatDigits cs).map (fun n => (n : Int))

/-- Python `f"{n:02d}"`: pad with `'0'` to width 2 (a sign counts toward the
width, as in Python). -/
def pad2 (n : Int) : List Char :=
  let s := intToChars n
  if s.length < 2 then '0' :: s else s

/-- Python `f"{n:04d}"` for the nonnegative years produced by `date.isoformat`. -/
def pad4 (n : Int) : List Char :=
  let s := intToChars n
  if s.length < 4 then List.replicate (4 - s.length) '0' ++ s else s

/-! ### TimeArithmetic (src/app.py lines 42-53, 707-718) -/

/-- `minutes_to_label` (src/app.py line 42): `divmod(minutes, 60)` then
`f"{hours:02d}:{mins:02d}"`.  `int(total_minutes)` is the identity on ints. -/
def minutes_to_label (total_minutes : Int) : String :=
  let hours := total_minutes / 60
  let mins := total_minutes % 60
  String.mk (pad2 hours ++ ':' :: pad2 mins)

/-- A Python `datetime.time` with zero seconds, as produced by
`datetime.strptime(value, "%H:%M").time()`. -/
structure PyTime where
  hour : Nat
  minute : Nat
deriving DecidableEq

/-- Split a character list on a separator, Python `str.split(sep)` style. -/
def splitOnChar (sep : Char) : List Char → List (List Char)
  | [] => [[]]
  | c :: rest =>
    let r := splitOnChar sep rest
    if c = sep then [] :: r
    else
      match r with
      | t :: ts => (c :: t) :: ts
      | [] => [[c]]

/-- A 1- or 2-digit numeric field, as matched by a `strptime` directive
(`%H`, `%M`, `%m`, `%d` each match at most two digits). -/
def parseField12 (cs : List Char) : Option Nat :=
  match cs with
  | [c] => if c.isDigit then some (digVal c) else none
  | [c1, c2] => if c1.isDigit && c2.isDigit then some (digVal c1 * 10 + digVal c2) else none
  | _ => none

/-- An exactly-4-digit numeric field, as matched by `strptime`'s `%Y`. -/
def parseField4 (cs : List Char) : Option Nat :=
  match cs with
  | [c1, c2, c3, c4] =>
    if c1.isDigit && c2.isDigit && c3.isDigit && c4.isDigit then
      some (((digVal c1 * 10 + digVal c2) * 10 + digVal c3) * 10 + digVal c4)
    else none
  | _ => none

/-- `parse_time_str` (src/app.py line 707): `datetime.strptime(value, "%H:%M").time()`,
`none` for the `ValueError` on malformed input.  `strptime` accepts 1- or
2-digit hour and minute fields separated by `':'` with nothing left over, and
succeeds exactly when the hour is below 24 and the minute below 60. -/
def parse_time_str (value : String) : Option PyTime :=
  match splitOnChar ':' value.data with
  | [hs, ms] =>
    match parseField12 hs, parseField12 ms with
    | some h, some m => if h < 24 && m < 60 then some ⟨h, m⟩ else none
    | _, _ => none
  | _ => none

/-- `time_to_minutes` (src/app.py line 716): parse, then `hour * 60 + minute`. -/
def time_to_minutes (value : String) : Option Nat :=
  (parse_time_str value).map (fun parsed => parsed.hour * 60 + parsed.minute)

/-- `difference_in_minutes` (src/app.py line 711): the two `datetime.combine`
values share the date and have zero seconds, so the minute count of their
difference is exactly `end - start` in minutes (the float floor division
`total_seconds() // 60` is exact here). -/
def difference_in_minutes (start stop : PyTime) : Int :=
  (stop.hour * 60 + stop.minute : Int) - (start.hour * 60 + start.minute)

/-- Python `start_time >= end_time` on `datetime.time` values with zero
seconds: lexicographic comparison of (hour, minute). -/
def pyTimeGe (a b : PyTime) : Prop :=
  b.hour < a.hour ∨ (a.hour = b.hour ∧ b.minute ≤ a.minute)

instance (a b : PyTime) : Decidable (pyTimeGe a b) := by
  unfold pyTimeGe
  infer_instance

/-- Python `start < end` on `datetime.time` values with zero seconds. -/
def pyTimeLt (a b : PyTime) : Prop :=
  a.hour < b.hour ∨ (a.hour = b.hour ∧ a.minute < b.minute)

instance (a b : PyTime) : Decidable (pyTimeLt a b) := by
  unfold pyTimeLt
  infer_instance

/-- The zero-padded 24-hour `HH:MM` rendering of an hour/minute pair; for
`h < 24` and `m < 60` these are exactly the valid zero-padded time strings. -/
def mkHHMM (h m : Nat) : String := String.mk (pad2 (h : Int) ++ ':' :: pad2 (m : Int))

/-- Claim C3: for every valid zero-padded 24-hour `HH:MM` string (hours 00-23,
minutes 00-59), `minutes_to_label (time_to_minutes t) = t`. -/
theorem minutes_label_roundtrip :
    ∀ h, h < 24 → ∀ m, m < 60 →
      (time_to_minutes (mkHHMM h m)).map (fun n => minutes_to_label (n : Int)) =
        some (mkHHMM h m) := by
  decide

/-- Witness for C3 at 09:30. -/
theorem minutes_label_roundtrip_witness :
    (9 < 24 ∧ 30 < 60) ∧
      (time_to_minutes (mkHHMM 9 30)).map (fun n => minutes_to_label (n : Int)) =
        some (mkHHMM 9 30) :=
  ⟨by decide, minutes_label_roundtrip 9 (by decide) 30 (by decide)⟩

/-! ### WeekBoundsCalculator (src/app.py lines 721-725) -/

/-- `date.weekday()` on the ordinal model: ordinal 1 is Monday, Monday = 0. -/
def pyWeekday (d : Int) : Int := (d - 1) % 7

/-- `calculate_week_bounds` (src/app.py line 721):
`days_back = (anchor.weekday() - 3) % 7`, `start = anchor - days_back`,
`end = start + 6`. -/
def calculate_week_bounds (anchor : Int) : Int × Int :=
  let days_back := (pyWeekday anchor - 3) % 7
  let start := anchor - days_back
  (start, start + 6)

/-- Claim C4: for every anchor date `d`, `calculate_week_bounds d` returns
`(weekStart, weekEnd)` with `weekStart ≤ d ≤ weekEnd`, `weekEnd - weekStart = 6`
days, `weekStart` on weekday 3 (Thursday, Monday = 0 numbering), and
`weekStart = d - ((weekday d - 3) mod 7)`. -/
theorem calculate_week_bounds_spec (d : Int) :
    (calculate_week_bounds d).1 ≤ d ∧ d ≤ (calculate_week_bounds d).2 ∧
    (calculate_week_bounds d).2 - (calculate_week_bounds d).1 = 6 ∧
    pyWeekday (calculate_week_bounds d).1 = 3 ∧
    (calculate_week_bounds d).1 = d - (pyWeekday d - 3) % 7 := by
  have h : calculate_week_bounds d =
      (d - ((d - 1) % 7 - 3) % 7, d - ((d - 1) % 7 - 3) % 7 + 6) := rfl
  rw [h]
  unfold pyWeekday
  constructor
  · omega
  constructor
  · omega
  constructor
  · omega
  constructor
  · omega
  · omega

/-! ### Python dicts as insertion-ordered association lists -/

/-- Dict lookup `d[k]` / `d.get(k)`: `none` models a `KeyError`/default. -/
def alGet? {α β : Type} [DecidableEq α] : List (α × β) → α → Option β
  | [], _ => none
  | (k', v) :: rest, k => if k = k' then some v else alGet? rest k

/-- Dict assignment `d[k] = v`: update in place if present, else append. -/
def alInsert {α β : Type} [DecidableEq α] : List (α × β) → α → β → List (α × β)
  | [], k, v => [(k, v)]
  | (k', v') :: rest, k, v =>
    if k = k' then (k', v) :: rest else (k', v') :: alInsert rest k v

/-- Dict `d.setdefault(k, v0)`: returns the updated dict and the value bound
to `k` afterwards. -/
def alSetdefault {α β : Type} [DecidableEq α] (l : List (α × β)) (k : α) (v0 : β) :
    List (α × β) × β :=
  match alGet? l k with
  | some v => (l, v)
  | none => (l ++ [(k, v0)], v0)

theorem alGet?_insert_self {α β : Type} [DecidableEq α] (l : List (α × β)) (k : α) (v : β) :
    alGet? (alInsert l k v) k = some v := by
  induction l with
  | nil => simp [alInsert, alGet?]
  | cons p rest ih =>
    by_cases h : k = p.1
    · simp [alInsert, alGet?, h]
    · simp [alInsert, alGet?, h, ih]

theorem alGet?_insert_ne {α β : Type} [DecidableEq α] (l : List (α × β)) (k k' : α) (v : β)
    (h : k' ≠ k) : alGet? (alInsert l k v) k' = alGet? l k' := by
  induction l with
  | nil => simp [alInsert, alGet?, h]
  | cons p rest ih =>
    by_cases hk : k = p.1
    · subst hk
      simp [alInsert, alGet?, h]
    · by_cases hk' : k' = p.1
      · simp [alInsert, alGet?, hk, hk']
      · simp [alInsert, alGet?, hk, hk', ih]

theorem alGet?_append_single_of_none {α β : Type} [DecidableEq α] (l : List (α × β))
    (k k' : α) (v0 : β) (h : alGet? l k' = none) :
    alGet? (l ++ [(k, v0)]) k' = if k' = k then some v0 else none := by
  induction l with
  | nil => simp [alGet?]
  | cons p rest ih =>
    by_cases hk' : k' = p.1
    · simp [alGet?, hk'] at h
    · simp [alGet?, hk'] at h ⊢
      exact ih h

theorem alGet?_append_single_of_some {α β : Type} [DecidableEq α] (l : List (α × β))
    (k k' : α) (v0 : β) (v : β) (h : alGet? l k' = some v) :
    alGet? (l ++ [(k, v0)]) k' = some v := by
  induction l with
  | nil => simp [alGet?] at h
  | cons p rest ih =>
    by_cases hk' : k' = p.1
    · simp [alGet?, hk'] at h ⊢
      exact h
    · simp [alGet?, hk'] at h ⊢
      exact ih h

/-- Lookup in a dict built by inserting `f day` for each `day` of a list
(Python dict comprehension `{day: f(day) for day in days}` when `init = []`). -/
theorem alGet?_foldl_insert {α β : Type} [DecidableEq α] (f : α → β) (days : List α) :
    ∀ (init : List (α × β)) (d : α),
      alGet? (days.foldl (fun acc day => alInsert acc day (f day)) init) d =
        if d ∈ days then some (f d) else alGet? init d := by
  induction days with
  | nil => simp
  | cons day rest ih =>
    intro init d
    simp only [List.foldl_cons, ih]
    by_cases hd : d ∈ rest
    · simp [hd]
    · by_cases hday : d = day
      · subst hday
        simp [hd, alGet?_insert_self]
      · simp [hd, hday, alGet?_insert_ne _ _ _ _ hday]

theorem mem_keys_of_alGet?_eq_some {α β : Type} [DecidableEq α] (l : List (α × β))
    (k : α) (v : β) (h : alGet? l k = some v) : k ∈ l.map Prod.fst := by
  induction l with
  | nil => simp [alGet?] at h
  | cons p rest ih =>
    by_cases hk : k = p.1
    · simp [hk]
    · simp [alGet?, hk] at h
      simp [ih h]

theorem alGet?_isSome_of_mem_keys {α β : Type} [DecidableEq α] (l : List (α × β))
    (k : α) (h : k ∈ l.map Prod.fst) : (alGet? l k).isSome = true := by
  induction l with
  | nil => simp at h
  | cons p rest ih =>
    by_cases hk : k = p.1
    · simp [alGet?, hk]
    · rw [List.map_cons, List.mem_cons] at h
      rcases h with h | h
      · exact absurd h hk
      · simp [alGet?, hk, ih h]

/-! ### Python `sorted` on strings (code-point lexicographic order) -/

/-- Lexicographic order on character lists by code point, Python `str` `<=`. -/
def charListLe : List Char → List Char → Bool
  | [], _ => true
  | _ :: _, [] => false
  | a :: as, b :: bs => if a < b then true else if a = b then charListLe as bs else false

/-- Python `a <= b` on strings. -/
def strLe (a b : String) : Bool := charListLe a.data b.data

/-- Insert into a sorted list of strings. -/
def insertSorted (s : String) : List String → List String
  | [] => [s]
  | t :: ts => if strLe s t then s :: t :: ts else t :: insertSorted s ts

/-- Insertion sort modelling Python `sorted` on a list of distinct strings
(for distinct keys every correct sort produces the same output). -/
def sortStrings (l : List String) : List String := l.foldr insertSorted []

theorem mem_insertSorted (x s : String) (ts : List String) :
    x ∈ insertSorted s ts ↔ x = s ∨ x ∈ ts := by
  induction ts with
  | nil => simp [insertSorted]
  | cons t ts ih =>
    by_cases h : strLe s t
    · simp [insertSorted, h]
    · simp [insertSorted, h, ih]
      tauto

theorem mem_sortStrings (x : String) (l : List String) :
    x ∈ sortStrings l ↔ x ∈ l := by
  induction l with
  | nil => simp [sortStrings]
  | cons s ss ih =>
    simp only [sortStrings, List.foldr_cons] at ih ⊢
    rw [mem_insertSorted, ih, List.mem_cons]

/-! ### EntryView rows and CalendarProjector (src/app.py lines 532-541, 728-763) -/

/-- `EntryDTO` (src/app.py line 532): a time-entry row joined with its
charge-code label. -/
structure EntryDTO where
  id : Int
  charge_code_id : Int
  charge_code_label : String
  entry_date : String
  start_time : String
  end_time : String
  duration_minutes : Int
  activity_text : String
deriving DecidableEq

/-- One layout cell appended to a day's list by `group_entries_for_calendar`
(src/app.py lines 746-762). -/
structure CalCell where
  id : Int
  entry_date : String
  charge_code_id : Int
  start_time : String
  end_time : String
  activity_text : String
  charge_code_label : String
  duration_minutes : Int
  start_minutes : Int
  end_minutes : Int
  relative_start_minutes : Int
  relative_duration_minutes : Int
  color_class : String
deriving DecidableEq

/-- The loop body of `group_entries_for_calendar` (src/app.py lines 736-762),
one step per entry.  `.error ()` models the `ValueError` escaping from
`time_to_minutes` on an unparsable stored start time; note the
`grouped.setdefault(entry.entry_date, [])` on line 737 runs before the parse. -/
def groupLoop (color_lookup : Int → Option String) (window_start window_end : Int) :
    List EntryDTO → List (String × List CalCell) → Except Unit (List (String × List CalCell))
  | [], grouped => .ok grouped
  | entry :: rest, grouped =>
    let sd := alSetdefault grouped entry.entry_date ([] : List CalCell)
    let grouped1 := sd.1
    let day_entries := sd.2
    match time_to_minutes entry.start_time with
    | none => .error ()
    | some sm =>
      let start_minutes : Int := sm
      let entry_end := start_minutes + entry.duration_minutes
      if entry_end ≤ window_start ∨ start_minutes ≥ window_end then
        groupLoop color_lookup window_start window_end rest grouped1
      else
        let clamped_start := max start_minutes window_start
        let clamped_end := min entry_end window_end
        let cell : CalCell :=
          { id := entry.id
            entry_date := entry.entry_date
            charge_code_id := entry.charge_code_id
            start_time := entry.start_time
            end_time := entry.end_time
            activity_text := entry.activity_text
            charge_code_label := entry.charge_code_label
            duration_minutes := entry.duration_minutes
            start_minutes := start_minutes
            end_minutes := entry_end
            relative_start_minutes := clamped_start - window_start
            relative_duration_minutes := max (clamped_end - clamped_start) 1
            color_class := (color_lookup entry.charge_code_id).getD "charge-color-default" }
        groupLoop color_lookup window_start window_end rest
          (alInsert grouped1 entry.entry_date (day_entries ++ [cell]))

/-- `group_entries_for_calendar` (src/app.py line 728).  The `color_lookup`
dict is modelled as a function (`color_lookup or {}` corresponds to passing
`fun x => none`); `window_start`/`window_end` keep their defaults at call
sites. -/
def group_entries_for_calendar (entries : List EntryDTO) (color_lookup : Int → Option String)
    (window_start window_end : Int) : Except Unit (List (String × List CalCell)) :=
  groupLoop color_lookup window_start window_end entries []

/-- The cell the loop body emits for an entry whose start time parsed to `sm`
minutes, or `none` when the entry lies entirely outside the display window. -/
def calEmit (color_lookup : Int → Option String) (window_start window_end : Int)
    (entry : EntryDTO) (sm : Nat) : Option CalCell :=
  let start_minutes : Int := sm
  let entry_end := start_minutes + entry.duration_minutes
  if entry_end ≤ window_start ∨ start_minutes ≥ window_end then none
  else
    let clamped_start := max start_minutes window_start
    let clamped_end := min entry_end window_end
    some
      { id := entry.id
        entry_date := entry.entry_date
        charge_code_id := entry.charge_code_id
        start_time := entry.start_time
        end_time := entry.end_time
        activity_text := entry.activity_text
        charge_code_label := entry.charge_code_label
        duration_minutes := entry.duration_minutes
        start_minutes := start_minutes
        end_minutes := entry_end
        relative_start_minutes := clamped_start - window_start
        relative_duration_minutes := max (clamped_end - clamped_start) 1
        color_class := (color_lookup entry.charge_code_id).getD "charge-color-default" }

/-- Per-entry emission including the parse: `none` both for unparsable start
times and for entries outside the window. -/
def calStep? (color_lookup : Int → Option String) (window_start window_end : Int)
    (entry : EntryDTO) : Option CalCell :=
  match time_to_minutes entry.start_time with
  | some sm => calEmit color_lookup window_start window_end entry sm
  | none => none

/-- The intended contents of the grouped dict after processing `processed`. -/
def calSpec (color_lookup : Int → Option String) (window_start window_end : Int)
    (processed : List EntryDTO) (d : String) : Option (List CalCell) :=
  if d ∈ processed.map (fun e => e.entry_date) then
    some ((processed.filter (fun e' => e'.entry_date = d)).filterMap
      (calStep? color_lookup window_start window_end))
  else none

theorem calStep?_of_parse (color_lookup : Int → Option String) (window_start window_end : Int)
    (e : EntryDTO) (sm : Nat) (h : time_to_minutes e.start_time = some sm) :
    calStep? color_lookup window_start window_end e =
      calEmit color_lookup window_start window_end e sm := by
  simp [calStep?, h]

theorem filter_date_nil (processed : List EntryDTO) (d : String)
    (h : d ∉ processed.map (fun e => e.entry_date)) :
    processed.filter (fun e' => e'.entry_date = d) = [] := by
  induction processed with
  | nil => rfl
  | cons e rest ih =>
    simp only [List.map_cons, List.mem_cons] at h
    push_neg at h
    have hne : ¬(e.entry_date = d) := fun hc => h.1 hc.symm
    rw [List.filter_cons]
    simp only [hne, decide_False, Bool.false_eq_true, if_false]
    exact ih h.2

theorem calSpec_append (color_lookup : Int → Option String) (window_start window_end : Int)
    (processed : List EntryDTO) (e : EntryDTO) (d : String) :
    calSpec color_lookup window_start window_end (processed ++ [e]) d =
      if d = e.entry_date then
        some (((processed.filter (fun e' => e'.entry_date = d)).filterMap
            (calStep? color_lookup window_start window_end)) ++
          (calStep? color_lookup window_start window_end e).toList)
      else calSpec color_lookup window_start window_end processed d := by
  rcases eq_or_ne d e.entry_date with hd | hd
  · rw [if_pos hd]
    have hmem : d ∈ (processed ++ [e]).map (fun x => x.entry_date) := by
      simp [hd]
    rw [calSpec, if_pos hmem, List.filter_append, List.filterMap_append]
    have hfe : [e].filter (fun e' => e'.entry_date = d) = [e] := by
      simp [hd]
    rw [hfe]
    rcases hs : calStep? color_lookup window_start window_end e with _ | c <;>
      simp [hs, List.filterMap_cons]
  · rw [if_neg hd]
    have hne : ¬(e.entry_date = d) := fun hc => hd hc.symm
    have hiff : (d ∈ (processed ++ [e]).map (fun x => x.entry_date)) ↔
        (d ∈ processed.map (fun x => x.entry_date)) := by
      simp [hd]
    have hfe : [e].filter (fun e' => e'.entry_date = d) = [] := by
      simp [hne]
    by_cases hmem : d ∈ processed.map (fun x => x.entry_date)
    · rw [calSpec, if_pos (hiff.mpr hmem), calSpec, if_pos hmem,
        List.filter_append, hfe, List.append_nil]
    · rw [calSpec, if_neg (fun hc => hmem (hiff.mp hc)), calSpec, if_neg hmem]

theorem groupLoop_cons_skip (color_lookup : Int → Option String) (window_start window_end : Int)
    (e : EntryDTO) (rest : List EntryDTO) (g : List (String × List CalCell)) (sm : Nat)
    (hsm : time_to_minutes e.start_time = some sm)
    (hcond : (sm : Int) + e.duration_minutes ≤ window_start ∨ (sm : Int) ≥ window_end) :
    groupLoop color_lookup window_start window_end (e :: rest) g =
      groupLoop color_lookup window_start window_end rest
        (alSetdefault g e.entry_date []).1 := by
  simp only [groupLoop, hsm]
  rw [if_pos hcond]

theorem groupLoop_cons_emit (color_lookup : Int → Option String) (window_start window_end : Int)
    (e : EntryDTO) (rest : List EntryDTO) (g : List (String × List CalCell)) (sm : Nat)
    (cell : CalCell) (hsm : time_to_minutes e.start_time = some sm)
    (hemit : calEmit color_lookup window_start window_end e sm = some cell) :
    groupLoop color_lookup window_start window_end (e :: rest) g =
      groupLoop color_lookup window_start window_end rest
        (alInsert (alSetdefault g e.entry_date []).1 e.entry_date
          ((alSetdefault g e.entry_date []).2 ++ [cell])) := by
  have hcond : ¬((sm : Int) + e.duration_minutes ≤ window_start ∨ (sm : Int) ≥ window_end) := by
    intro hc
    simp [calEmit, hc] at hemit
  have hcell := hemit
  simp only [calEmit] at hcell
  rw [if_neg hcond] at hcell
  have hcell' := Option.some.inj hcell
  simp only [groupLoop, hsm]
  rw [if_neg hcond, hcell']

theorem groupLoop_invariant (color_lookup : Int → Option String) (window_start window_end : Int) :
    ∀ (rest processed : List EntryDTO) (g : List (String × List CalCell)),
      (∀ e ∈ rest, (time_to_minutes e.start_time).isSome = true) →
      (∀ d, alGet? g d = calSpec color_lookup window_start window_end processed d) →
      ∃ g', groupLoop color_lookup window_start window_end rest g = .ok g' ∧
        ∀ d, alGet? g' d = calSpec color_lookup window_start window_end (processed ++ rest) d := by
  intro rest
  induction rest with
  | nil =>
    intro processed g _ hinv
    exact ⟨g, rfl, by simpa using hinv⟩
  | cons e rest ih =>
    intro processed g hparse hinv
    obtain ⟨sm, hsm⟩ := Option.isSome_iff_exists.mp (hparse e (List.mem_cons_self e rest))
    have hparse' : ∀ e' ∈ rest, (time_to_minutes e'.start_time).isSome = true :=
      fun e' he' => hparse e' (List.mem_cons_of_mem e he')
    have hstep : calStep? color_lookup window_start window_end e =
        calEmit color_lookup window_start window_end e sm :=
      calStep?_of_parse _ _ _ _ _ hsm
    rcases hg : alGet? g e.entry_date with _ | cells
    · -- new key: setdefault appends (entry_date, [])
      have hsd : alSetdefault g e.entry_date ([] : List CalCell) =
          (g ++ [(e.entry_date, [])], []) := by
        simp [alSetdefault, hg]
      have hmem : e.entry_date ∉ processed.map (fun e' => e'.entry_date) := by
        intro hc
        have h1 := hinv e.entry_date
        rw [hg] at h1
        simp [calSpec, hc] at h1
      have hnil := filter_date_nil processed e.entry_date hmem
      have hbase : ∀ d, d ≠ e.entry_date →
          alGet? (g ++ [(e.entry_date, ([] : List CalCell))]) d =
            calSpec color_lookup window_start window_end (processed ++ [e]) d := by
        intro d hd
        rw [calSpec_append, if_neg hd]
        rcases hdg : alGet? g d with _ | v
        · rw [alGet?_append_single_of_none _ _ _ _ hdg, if_neg hd, ← hinv d, hdg]
        · rw [alGet?_append_single_of_some _ _ _ _ _ hdg, ← hinv d, hdg]
      rcases hemit : calEmit color_lookup window_start window_end e sm with _ | cell
      · -- entry outside the window
        have hcond : (sm : Int) + e.duration_minutes ≤ window_start ∨
            (sm : Int) ≥ window_end := by
          by_contra hc
          simp [calEmit, hc] at hemit
        have hinv1 : ∀ d, alGet? (g ++ [(e.entry_date, ([] : List CalCell))]) d =
            calSpec color_lookup window_start window_end (processed ++ [e]) d := by
          intro d
          by_cases hd : d = e.entry_date
          · rw [hd, alGet?_append_single_of_none _ _ _ _ hg, if_pos rfl,
              calSpec_append, if_pos rfl, hnil]
            simp [hstep, hemit]
          · exact hbase d hd
        obtain ⟨g', hok, hspec⟩ := ih (processed ++ [e]) _ hparse' hinv1
        refine ⟨g', ?_, ?_⟩
        · rw [groupLoop_cons_skip _ _ _ _ _ _ _ hsm hcond, hsd]
          exact hok
        · intro d
          rw [hspec d, List.append_assoc, List.singleton_append]
      · -- entry emitted
        have hinv2 : ∀ d,
            alGet? (alInsert (g ++ [(e.entry_date, [])]) e.entry_date ([] ++ [cell])) d =
              calSpec color_lookup window_start window_end (processed ++ [e]) d := by
          intro d
          by_cases hd : d = e.entry_date
          · rw [hd, alGet?_insert_self, calSpec_append, if_pos rfl, hnil]
            simp [hstep, hemit]
          · rw [alGet?_insert_ne _ _ _ _ hd]
            exact hbase d hd
        obtain ⟨g', hok, hspec⟩ := ih (processed ++ [e]) _ hparse' hinv2
        refine ⟨g', ?_, ?_⟩
        · rw [groupLoop_cons_emit _ _ _ _ _ _ _ _ hsm hemit, hsd]
          exact hok
        · intro d
          rw [hspec d, List.append_assoc, List.singleton_append]
    · -- existing key
      have hsd : alSetdefault g e.entry_date ([] : List CalCell) = (g, cells) := by
        simp [alSetdefault, hg]
      have hval : calSpec color_lookup window_start window_end processed e.entry_date =
          some cells := by
        rw [← hinv e.entry_date]
        exact hg
      have hmem : e.entry_date ∈ processed.map (fun e' => e'.entry_date) := by
        by_contra hc
        simp [calSpec, hc] at hval
      have hcells : cells =
          (processed.filter (fun e' => e'.entry_date = e.entry_date)).filterMap
            (calStep? color_lookup window_start window_end) := by
        have h2 := hval
        simp [calSpec, hmem] at h2
        exact h2.symm
      rcases hemit : calEmit color_lookup window_start window_end e sm with _ | cell
      · have hcond : (sm : Int) + e.duration_minutes ≤ window_start ∨
            (sm : Int) ≥ window_end := by
          by_contra hc
          simp [calEmit, hc] at hemit
        have hinv1 : ∀ d, alGet? g d =
            calSpec color_lookup window_start window_end (processed ++ [e]) d := by
          intro d
          by_cases hd : d = e.entry_date
          · rw [calSpec_append, if_pos hd, hd, hg, hcells]
            simp [hstep, hemit, hd]
          · rw [calSpec_append, if_neg hd]
            exact hinv d
        obtain ⟨g', hok, hspec⟩ := ih (processed ++ [e]) _ hparse' hinv1
        refine ⟨g', ?_, ?_⟩
        · rw [groupLoop_cons_skip _ _ _ _ _ _ _ hsm hcond, hsd]
          exact hok
        · intro d
          rw [hspec d, List.append_assoc, List.singleton_append]
      · have hinv2 : ∀ d, alGet? (alInsert g e.entry_date (cells ++ [cell])) d =
            calSpec color_lookup window_start window_end (processed ++ [e]) d := by
          intro d
          by_cases hd : d = e.entry_date
          · rw [hd, alGet?_insert_self, calSpec_append, if_pos rfl, hcells]
            simp [hstep, hemit]
          · rw [alGet?_insert_ne _ _ _ _ hd, calSpec_append, if_neg hd]
            exact hinv d
        obtain ⟨g', hok, hspec⟩ := ih (processed ++ [e]) _ hparse' hinv2
        refine ⟨g', ?_, ?_⟩
        · rw [groupLoop_cons_emit _ _ _ _ _ _ _ _ hsm hemit, hsd]
          exact hok
        · intro d
          rw [hspec d, List.append_assoc, List.singleton_append]

/-- The grouped dict produced by `group_entries_for_calendar` on parsable
input: one key per distinct entry date, bound, in input order, to the emitted
cell of each in-window entry of that date. -/
theorem group_entries_characterization (entries : List EntryDTO)
    (color_lookup : Int → Option String) (window_start window_end : Int)
    (hparse : ∀ e ∈ entries, (time_to_minutes e.start_time).isSome = true) :
    ∃ g, group_entries_for_calendar entries color_lookup window_start window_end = .ok g ∧
      ∀ d, alGet? g d = calSpec color_lookup window_start window_end entries d := by
  obtain ⟨g', hok, hspec⟩ := groupLoop_invariant color_lookup window_start window_end
    entries [] [] hparse (by intro d; simp [alGet?, calSpec])
  exact ⟨g', hok, by simpa using hspec⟩

/-- Claim C5: for every entry processed by the projector, with
`startMin = time_to_minutes entry.start_time` and
`endMin = startMin + entry.duration_minutes`: no cell is emitted when
`endMin ≤ window_start` or `startMin ≥ window_end`; otherwise exactly one cell
is emitted (its date's list is the in-order concatenation of one cell per
in-window entry), with `relative_start_minutes = max startMin window_start -
window_start` and `relative_duration_minutes =
max (min endMin window_end - max startMin window_start) 1`. -/
theorem calendar_entry_emission (entries : List EntryDTO)
    (color_lookup : Int → Option String) (window_start window_end : Int)
    (hparse : ∀ e ∈ entries, (time_to_minutes e.start_time).isSome = true) :
    ∃ g, group_entries_for_calendar entries color_lookup window_start window_end = .ok g ∧
      ∀ e ∈ entries, ∀ sm, time_to_minutes e.start_time = some sm →
        alGet? g e.entry_date =
          some ((entries.filter (fun e' => e'.entry_date = e.entry_date)).filterMap
            (calStep? color_lookup window_start window_end)) ∧
        calStep? color_lookup window_start window_end e =
          (if (sm : Int) + e.duration_minutes ≤ window_start ∨ (sm : Int) ≥ window_end then
            none
          else some
            { id := e.id
              entry_date := e.entry_date
              charge_code_id := e.charge_code_id
              start_time := e.start_time
              end_time := e.end_time
              activity_text := e.activity_text
              charge_code_label := e.charge_code_label
              duration_minutes := e.duration_minutes
              start_minutes := (sm : Int)
              end_minutes := (sm : Int) + e.duration_minutes
              relative_start_minutes := max (sm : Int) window_start - window_start
              relative_duration_minutes :=
                max (min ((sm : Int) + e.duration_minutes) window_end -
                  max (sm : Int) window_start) 1
              color_class := (color_lookup e.charge_code_id).getD "charge-color-default" }) := by
  obtain ⟨g, hok, hspec⟩ :=
    group_entries_characterization entries color_lookup window_start window_end hparse
  refine ⟨g, hok, ?_⟩
  intro e he sm hsm
  constructor
  · rw [hspec e.entry_date, calSpec, if_pos (List.mem_map_of_mem _ he)]
  · rw [calStep?_of_parse _ _ _ _ _ hsm]
    simp [calEmit]

/-- A sample in-window entry: 09:00-10:30 against the 07:00-18:00 window. -/
def sampleEntry : EntryDTO :=
  { id := 1, charge_code_id := 1, charge_code_label := "P-1 Demo",
    entry_date := "2024-01-04", start_time := "09:00", end_time := "10:30",
    duration_minutes := 90, activity_text := "client meeting" }

/-- Witness for C5 on a single 09:00-10:30 entry with the 07:00-18:00 window. -/
theorem calendar_entry_emission_witness :
    (∀ e ∈ [sampleEntry], (time_to_minutes e.start_time).isSome = true) ∧
    (∃ g, group_entries_for_calendar [sampleEntry] (fun _ => none) 420 1080 = .ok g ∧
      ∀ e ∈ [sampleEntry], ∀ sm, time_to_minutes e.start_time = some sm →
        alGet? g e.entry_date =
          some (([sampleEntry].filter (fun e' => e'.entry_date = e.entry_date)).filterMap
            (calStep? (fun _ => none) 420 1080)) ∧
        calStep? (fun _ => none) 420 1080 e =
          (if (sm : Int) + e.duration_minutes ≤ 420 ∨ (sm : Int) ≥ 1080 then
            none
          else some
            { id := e.id
              entry_date := e.entry_date
              charge_code_id := e.charge_code_id
              start_time := e.start_time
              end_time := e.end_time
              activity_text := e.activity_text
              charge_code_label := e.charge_code_label
              duration_minutes := e.duration_minutes
              start_minutes := (sm : Int)
              end_minutes := (sm : Int) + e.duration_minutes
              relative_start_minutes := max (sm : Int) 420 - 420
              relative_duration_minutes :=
                max (min ((sm : Int) + e.duration_minutes) 1080 - max (sm : Int) 420) 1
              color_class := ((fun _ => none) e.charge_code_id).getD "charge-color-default" })) :=
  ⟨by decide, calendar_entry_emission [sampleEntry] (fun _ => none) 420 1080 (by decide)⟩

/-- A sample entry 08:00-08:15, fully before a 09:00-18:00 window. -/
def earlyEntry : EntryDTO :=
  { id := 2, charge_code_id := 1, charge_code_label := "P-1 Demo",
    entry_date := "2024-01-05", start_time := "08:00", end_time := "08:15",
    duration_minutes := 15, activity_text := "early" }

/-- A sample entry 17:30-19:00, straddling the end of a 07:00-18:00 window. -/
def lateEntry : EntryDTO :=
  { id := 3, charge_code_id := 2, charge_code_label := "P-2 Demo",
    entry_date := "2024-01-06", start_time := "17:30", end_time := "19:00",
    duration_minutes := 90, activity_text := "late" }

/-- Claim C9: the grouped mapping has a key for the `entry_date` of every
supplied entry; a date all of whose entries are discarded by the window filter
is still present, bound to the empty list. -/
theorem calendar_date_key_always_present (entries : List EntryDTO)
    (color_lookup : Int → Option String) (window_start window_end : Int)
    (hparse : ∀ e ∈ entries, (time_to_minutes e.start_time).isSome = true) :
    ∃ g, group_entries_for_calendar entries color_lookup window_start window_end = .ok g ∧
      (∀ e ∈ entries, (alGet? g e.entry_date).isSome = true) ∧
      (∀ e ∈ entries,
        (∀ e' ∈ entries, e'.entry_date = e.entry_date →
          calStep? color_lookup window_start window_end e' = none) →
        alGet? g e.entry_date = some []) := by
  obtain ⟨g, hok, hspec⟩ :=
    group_entries_characterization entries color_lookup window_start window_end hparse
  refine ⟨g, hok, ?_, ?_⟩
  · intro e he
    rw [hspec e.entry_date, calSpec, if_pos (List.mem_map_of_mem _ he)]
    rfl
  · intro e he hall
    rw [hspec e.entry_date, calSpec, if_pos (List.mem_map_of_mem _ he)]
    have hnil : (entries.filter (fun e' => e'.entry_date = e.entry_date)).filterMap
        (calStep? color_lookup window_start window_end) = [] := by
      rw [List.filterMap_eq_nil_iff]
      intro a ha
      exact hall a (List.mem_of_mem_filter ha) (by simpa using List.of_mem_filter ha)
    rw [hnil]

/-- Witness for C9 on an 08:00-08:15 entry fully outside the 09:00-18:00
window: the date key is still present, bound to `[]`. -/
theorem calendar_date_key_always_present_witness :
    (∀ e ∈ [earlyEntry], (time_to_minutes e.start_time).isSome = true) ∧
    (∃ g, group_entries_for_calendar [earlyEntry] (fun _ => none) 540 1080 = .ok g ∧
      (∀ e ∈ [earlyEntry], (alGet? g e.entry_date).isSome = true) ∧
      (∀ e ∈ [earlyEntry],
        (∀ e' ∈ [earlyEntry], e'.entry_date = e.entry_date →
          calStep? (fun _ => none) 540 1080 e' = none) →
        alGet? g e.entry_date = some [])) :=
  ⟨by decide, calendar_date_key_always_present [earlyEntry] (fun _ => none) 540 1080 (by decide)⟩

/-- Claim C10: with an integer window `window_start < window_end` and
nonnegative durations, every emitted cell satisfies
`0 ≤ relative_start_minutes`, `1 ≤ relative_duration_minutes` and
`relative_start_minutes + relative_duration_minutes ≤ window_end - window_start`. -/
theorem calendar_cells_inside_window (entries : List EntryDTO)
    (color_lookup : Int → Option String) (window_start window_end : Int)
    (hwin : window_start < window_end)
    (hdur : ∀ e ∈ entries, 0 ≤ e.duration_minutes)
    (hparse : ∀ e ∈ entries, (time_to_minutes e.start_time).isSome = true) :
    ∃ g, group_entries_for_calendar entries color_lookup window_start window_end = .ok g ∧
      ∀ d cells, alGet? g d = some cells → ∀ c ∈ cells,
        0 ≤ c.relative_start_minutes ∧ 1 ≤ c.relative_duration_minutes ∧
        c.relative_start_minutes + c.relative_duration_minutes ≤
          window_end - window_start := by
  obtain ⟨g, hok, hspec⟩ :=
    group_entries_characterization entries color_lookup window_start window_end hparse
  refine ⟨g, hok, ?_⟩
  intro d cells hcells c hc
  rw [hspec d] at hcells
  by_cases hmem : d ∈ entries.map (fun e => e.entry_date)
  · rw [calSpec, if_pos hmem] at hcells
    rw [← Option.some.inj hcells] at hc
    obtain ⟨e, he, hstep⟩ := List.mem_filterMap.mp hc
    have heMem : e ∈ entries := List.mem_of_mem_filter he
    rcases hsm : time_to_minutes e.start_time with _ | sm
    · simp [calStep?, hsm] at hstep
    · rw [calStep?_of_parse _ _ _ _ _ hsm] at hstep
      by_cases hcond : ((sm : Int) + e.duration_minutes ≤ window_start ∨
          (sm : Int) ≥ window_end)
      · simp [calEmit, hcond] at hstep
      · simp only [calEmit, hcond, if_false] at hstep
        have hd := hdur e heMem
        have hceq := Option.some.inj hstep
        subst hceq
        refine ⟨?_, ?_, ?_⟩
        · show (0 : Int) ≤ max (sm : Int) window_start - window_start
          omega
        · show (1 : Int) ≤ max (min ((sm : Int) + e.duration_minutes) window_end -
            max (sm : Int) window_start) 1
          omega
        · show max (sm : Int) window_start - window_start +
            max (min ((sm : Int) + e.duration_minutes) window_end -
              max (sm : Int) window_start) 1 ≤ window_end - window_start
          omega
  · rw [calSpec, if_neg hmem] at hcells
    cases hcells

/-- Witness for C10 on an entry straddling the end of the window. -/
theorem calendar_cells_inside_window_witness :
    (420 < (1080 : Int) ∧
      (∀ e ∈ [lateEntry], 0 ≤ e.duration_minutes) ∧
      (∀ e ∈ [lateEntry], (time_to_minutes e.start_time).isSome = true)) ∧
    (∃ g, group_entries_for_calendar [lateEntry] (fun _ => none) 420 1080 = .ok g ∧
      ∀ d cells, alGet? g d = some cells → ∀ c ∈ cells,
        0 ≤ c.relative_start_minutes ∧ 1 ≤ c.relative_duration_minutes ∧
        c.relative_start_minutes + c.relative_duration_minutes ≤ 1080 - 420) :=
  ⟨⟨by decide, by decide, by decide⟩,
    calendar_cells_inside_window [lateEntry] (fun _ => none) 420 1080
      (by decide) (by decide) (by decide)⟩

/-! ### WeeklyAggregator (src/app.py lines 766-813) -/

/-- Round half to even to an integer, the rounding mode of Python `round`. -/
def rhe (x : ℚ) : Int :=
  let f := ⌊x⌋
  if x - f < 1/2 then f
  else if (1 : ℚ)/2 < x - f then f + 1
  else if f % 2 = 0 then f else f + 1

/-- Python `round(x, 2)` on the exact-rational model of floats. -/
def round2 (x : ℚ) : ℚ := (rhe (100 * x) : ℚ) / 100

/-- `date.isoformat()` on the ordinal model: the standard civil-from-days
conversion (the shift by 305 maps Python ordinals, day 1 = 0001-01-01, to days
since 0000-03-01), rendered as zero-padded `YYYY-MM-DD`. -/
def pyISOFormat (ordinal : Int) : String :=
  let z := ordinal + 305
  let era := (if 0 ≤ z then z else z - 146096) / 146097
  let doe := z - era * 146097
  let yoe := (doe - doe / 1460 + doe / 36524 - doe / 146096) / 365
  let y0 := yoe + era * 400
  let doy := doe - (365 * yoe + yoe / 4 - yoe / 100)
  let mp := (5 * doy + 2) / 153
  let d := doy - (153 * mp + 2) / 5 + 1
  let m := if mp < 10 then mp + 3 else mp - 9
  let y := if m ≤ 2 then y0 + 1 else y0
  String.mk (pad4 y ++ '-' :: pad2 m ++ '-' :: pad2 d)

/-- `days = [(week_start + timedelta(days=i)).isoformat() for i in range(7)]`
(src/app.py line 768). -/
def weekDays (week_start : Int) : List String :=
  (List.range 7).map (fun i => pyISOFormat (week_start + i))

/-- One `{start_time, end_time, activity_text}` detail record
(src/app.py lines 788-794). -/
structure Detail where
  start_time : String
  end_time : String
  activity_text : String
deriving DecidableEq

/-- One `{hours, comments, details}` cell dict of the overview. -/
structure DayCell where
  hours : ℚ
  comments : List String
  details : List Detail
deriving DecidableEq

def emptyDayCell : DayCell := { hours := 0, comments := [], details := [] }

/-- The fresh per-charge dict `{day: {"hours": 0.0, ...} for day in days}`
(src/app.py lines 775-782). -/
def perChargeInit (days : List String) : List (String × DayCell) :=
  days.foldl (fun acc day => alInsert acc day emptyDayCell) []

/-- The mutable state of the entry loop: the `overview` dict of per-charge
dicts and the `day_totals` dict. -/
structure AggState where
  overview : List (String × List (String × DayCell))
  day_totals : List (String × ℚ)
deriving DecidableEq

/-- The entry loop of `build_week_overview` (src/app.py lines 771-795).
`.error ()` models the `KeyError` raised by `per_charge[entry.entry_date]`
(line 784) when the entry's date is not among the week's day keys (the later
`day_totals[entry.entry_date]` lookup on line 795 can only fail under the
same condition, after the same-iteration `per_charge` lookup has already
raised). -/
def aggLoop (days : List String) : List EntryDTO → AggState → Except Unit AggState
  | [], st => .ok st
  | entry :: rest, st =>
    let sd := alSetdefault st.overview entry.charge_code_label (perChargeInit days)
    let overview1 := sd.1
    let per_charge := sd.2
    match alGet? per_charge entry.entry_date with
    | none => .error ()
    | some per_day =>
      let hours : ℚ := (entry.duration_minutes : ℚ) / 60
      let per_day' : DayCell :=
        { hours := per_day.hours + hours
          comments := per_day.comments ++ [entry.activity_text]
          details := per_day.details ++
            [{ start_time := entry.start_time, end_time := entry.end_time,
               activity_text := entry.activity_text }] }
      let overview2 := alInsert overview1 entry.charge_code_label
        (alInsert per_charge entry.entry_date per_day')
      match alGet? st.day_totals entry.entry_date with
      | none => .error ()
      | some t =>
        aggLoop days rest
          { overview := overview2
            day_totals := alInsert st.day_totals entry.entry_date (t + hours) }

/-- `cells[day] = {"hours": round(info["hours"], 2), ...}`
(src/app.py lines 801-807): the rounded presentation of a cell. -/
def roundCell (info : DayCell) : DayCell :=
  { hours := round2 info.hours, comments := info.comments, details := info.details }

/-- The `cells` dict of one overview row (src/app.py lines 800-807); the
`per_charge[day]` lookup always succeeds because every per-charge dict is
keyed by exactly `days`, so the `getD emptyDayCell` default is never used. -/
def overviewCells (days : List String) (per_charge : List (String × DayCell)) :
    List (String × DayCell) :=
  days.foldl (fun acc day => alInsert acc day (roundCell ((alGet? per_charge day).getD
    emptyDayCell))) []

/-- One row of the overview: label, cells and
`total_hours = round(sum(cell["hours"] for cell in cells.values()), 2)`
(src/app.py line 808) — note the sum ranges over the already-rounded cells. -/
structure OverviewRow where
  label : String
  cells : List (String × DayCell)
  total : ℚ
deriving DecidableEq

def mkRow (days : List String) (label : String) (per_charge : List (String × DayCell)) :
    OverviewRow :=
  let cells := overviewCells days per_charge
  { label := label, cells := cells,
    total := round2 ((cells.map (fun c => c.2.hours)).sum) }

/-- The returned overview (src/app.py line 813). -/
structure WeekOverview where
  days : List String
  rows : List OverviewRow
  day_totals : List (String × ℚ)
  week_total : ℚ
deriving DecidableEq

/-- `day_totals = {day: 0.0 for day in days}` (src/app.py line 769). -/
def dayTotalsInit (days : List String) : List (String × ℚ) :=
  days.foldl (fun acc day => alInsert acc day 0) []

/-- The rows loop (src/app.py lines 797-809): one row per label of
`sorted(overview.keys())`.  The `overview[label]` lookup always succeeds
because the labels iterated over are exactly the dict's keys; the model's
`filterMap` over the lookup result is that same total behaviour. -/
def overviewRows (days : List String)
    (overview : List (String × List (String × DayCell))) : List OverviewRow :=
  (sortStrings (overview.map Prod.fst)).filterMap (fun label =>
    (alGet? overview label).map (mkRow days label))

/-- `build_week_overview` (src/app.py line 766).  `week_end` is accepted and
ignored exactly as in the source, which derives the 7 day keys from
`week_start` alone. -/
def build_week_overview (entries : List EntryDTO) (week_start week_end : Int) :
    Except Unit WeekOverview :=
  match aggLoop (weekDays week_start) entries
      { overview := [], day_totals := dayTotalsInit (weekDays week_start) } with
  | .error err => .error err
  | .ok st =>
    .ok { days := weekDays week_start
          rows := overviewRows (weekDays week_start) st.overview
          day_totals := st.day_totals.map (fun p => (p.1, round2 p.2))
          week_total := round2 (((st.day_totals.map (fun p => (p.1, round2 p.2))).map
            (fun p => p.2)).sum) }

/-- Reference accumulation: full-precision hours of the (label, day) cell,
summed over the entries mapping to that cell. -/
def cellHours (entries : List EntryDTO) (label day : String) : ℚ :=
  ((entries.filter (fun e => e.charge_code_label = label ∧ e.entry_date = day)).map
    (fun e => (e.duration_minutes : ℚ) / 60)).sum

/-- Reference accumulation: the cell's comments, in input order. -/
def cellComments (entries : List EntryDTO) (label day : String) : List String :=
  (entries.filter (fun e => e.charge_code_label = label ∧ e.entry_date = day)).map
    (fun e => e.activity_text)

/-- Reference accumulation: the cell's details, in input order. -/
def cellDetails (entries : List EntryDTO) (label day : String) : List Detail :=
  (entries.filter (fun e => e.charge_code_label = label ∧ e.entry_date = day)).map
    (fun e => { start_time := e.start_time, end_time := e.end_time,
                activity_text := e.activity_text })

/-- Reference accumulation: the whole (label, day) cell, unrounded. -/
def cellAcc (entries : List EntryDTO) (label day : String) : DayCell :=
  { hours := cellHours entries label day
    comments := cellComments entries label day
    details := cellDetails entries label day }

/-- Reference accumulation: full-precision total hours of one day. -/
def dayHours (entries : List EntryDTO) (day : String) : ℚ :=
  ((entries.filter (fun e => e.entry_date = day)).map
    (fun e => (e.duration_minutes : ℚ) / 60)).sum

theorem filter_label_date_nil (processed : List EntryDTO) (l d : String)
    (h : l ∉ processed.map (fun e => e.charge_code_label)) :
    processed.filter (fun e => e.charge_code_label = l ∧ e.entry_date = d) = [] := by
  induction processed with
  | nil => rfl
  | cons e rest ih =>
    simp only [List.map_cons, List.mem_cons] at h
    push_neg at h
    have hne : ¬(e.charge_code_label = l) := fun hc => h.1 hc.symm
    rw [List.filter_cons]
    simp only [hne, false_and, decide_False, Bool.false_eq_true, if_false]
    exact ih h.2

theorem cellAcc_of_label_not_mem (processed : List EntryDTO) (l d : String)
    (h : l ∉ processed.map (fun e => e.charge_code_label)) :
    cellAcc processed l d = emptyDayCell := by
  unfold cellAcc cellHours cellComments cellDetails emptyDayCell
  rw [filter_label_date_nil processed l d h]
  rfl

theorem cellAcc_append (processed : List EntryDTO) (e : EntryDTO) (l d : String) :
    cellAcc (processed ++ [e]) l d =
      if e.charge_code_label = l ∧ e.entry_date = d then
        { hours := (cellAcc processed l d).hours + (e.duration_minutes : ℚ) / 60
          comments := (cellAcc processed l d).comments ++ [e.activity_text]
          details := (cellAcc processed l d).details ++
            [{ start_time := e.start_time, end_time := e.end_time,
               activity_text := e.activity_text }] }
      else cellAcc processed l d := by
  by_cases h : e.charge_code_label = l ∧ e.entry_date = d
  · rw [if_pos h]
    have hf : [e].filter (fun x => x.charge_code_label = l ∧ x.entry_date = d) = [e] := by
      simp [h.1, h.2]
    simp only [cellAcc, cellHours, cellComments, cellDetails, List.filter_append, hf,
      List.map_append, List.sum_append, List.map_cons, List.map_nil, List.sum_cons,
      List.sum_nil, add_zero]
  · rw [if_neg h]
    have hf : [e].filter (fun x => x.charge_code_label = l ∧ x.entry_date = d) = [] := by
      simp only [List.filter_cons, List.filter_nil]
      rw [if_neg (by simpa using h)]
    simp only [cellAcc, cellHours, cellComments, cellDetails, List.filter_append, hf,
      List.append_nil]

theorem dayHours_append (processed : List EntryDTO) (e : EntryDTO) (d : String) :
    dayHours (processed ++ [e]) d =
      if e.entry_date = d then dayHours processed d + (e.duration_minutes : ℚ) / 60
      else dayHours processed d := by
  by_cases h : e.entry_date = d
  · rw [if_pos h]
    have hf : [e].filter (fun x => x.entry_date = d) = [e] := by simp [h]
    simp only [dayHours, List.filter_append, hf, List.map_append, List.sum_append,
      List.map_cons, List.map_nil, List.sum_cons, List.sum_nil, add_zero]
  · rw [if_neg h]
    have hf : [e].filter (fun x => x.entry_date = d) = [] := by simp [h]
    simp only [dayHours, List.filter_append, hf, List.append_nil]

/-- The loop invariant of `aggLoop`: after processing `processed`, the
`overview` dict has one key per distinct label seen so far, each bound to a
dict over exactly the day keys holding the reference accumulation, and
`day_totals` holds the reference day totals over exactly the day keys. -/
def aggInv (days : List String) (processed : List EntryDTO) (st : AggState) : Prop :=
  (∀ l, alGet? st.overview l = none ↔ l ∉ processed.map (fun e => e.charge_code_label)) ∧
  (∀ l pc, alGet? st.overview l = some pc →
    ∀ d, alGet? pc d = if d ∈ days then some (cellAcc processed l d) else none) ∧
  (∀ d, alGet? st.day_totals d = if d ∈ days then some (dayHours processed d) else none)

theorem aggLoop_cons (days : List String) (e : EntryDTO) (rest : List EntryDTO) (st : AggState)
    (ov1 : List (String × List (String × DayCell))) (pc1 : List (String × DayCell))
    (per_day : DayCell) (t : ℚ)
    (hsd : alSetdefault st.overview e.charge_code_label (perChargeInit days) = (ov1, pc1))
    (hpd : alGet? pc1 e.entry_date = some per_day)
    (ht : alGet? st.day_totals e.entry_date = some t) :
    aggLoop days (e :: rest) st = aggLoop days rest
      { overview := alInsert ov1 e.charge_code_label
          (alInsert pc1 e.entry_date
            { hours := per_day.hours + (e.duration_minutes : ℚ) / 60
              comments := per_day.comments ++ [e.activity_text]
              details := per_day.details ++
                [{ start_time := e.start_time, end_time := e.end_time,
                   activity_text := e.activity_text }] })
        day_totals := alInsert st.day_totals e.entry_date
          (t + (e.duration_minutes : ℚ) / 60) } := by
  simp only [aggLoop, hsd, hpd, ht]

theorem perChargeInit_lookup (days : List String) (d : String) :
    alGet? (perChargeInit days) d = if d ∈ days then some emptyDayCell else none := by
  unfold perChargeInit
  rw [alGet?_foldl_insert (fun _ => emptyDayCell) days [] d]
  by_cases hd : d ∈ days
  · rw [if_pos hd, if_pos hd]
  · rw [if_neg hd, if_neg hd]
    rfl

theorem aggLoop_invariant (days : List String) :
    ∀ (rest processed : List EntryDTO) (st : AggState),
      (∀ e ∈ rest, e.entry_date ∈ days) →
      aggInv days processed st →
      ∃ st', aggLoop days rest st = .ok st' ∧ aggInv days (processed ++ rest) st' := by
  intro rest
  induction rest with
  | nil =>
    intro processed st _ hinv
    exact ⟨st, rfl, by simpa using hinv⟩
  | cons e rest ih =>
    intro processed st hdays hinv
    obtain ⟨hnone, hsome, hdt⟩ := hinv
    have hde : e.entry_date ∈ days := hdays e (List.mem_cons_self e rest)
    have hdays' : ∀ e' ∈ rest, e'.entry_date ∈ days :=
      fun e' h => hdays e' (List.mem_cons_of_mem e h)
    -- both setdefault cases produce a per-charge dict with the reference content
    obtain ⟨ov1, pc1, hsd, hov1, hpc⟩ :
        ∃ ov1 pc1,
          alSetdefault st.overview e.charge_code_label (perChargeInit days) = (ov1, pc1) ∧
          (∀ l, l ≠ e.charge_code_label → alGet? ov1 l = alGet? st.overview l) ∧
          (∀ d, alGet? pc1 d =
            if d ∈ days then some (cellAcc processed e.charge_code_label d) else none) := by
      rcases hov : alGet? st.overview e.charge_code_label with _ | pc
      · refine ⟨st.overview ++ [(e.charge_code_label, perChargeInit days)], perChargeInit days,
          by simp [alSetdefault, hov], ?_, ?_⟩
        · intro l hl
          rcases hl2 : alGet? st.overview l with _ | v
          · rw [alGet?_append_single_of_none _ _ _ _ hl2, if_neg hl]
          · rw [alGet?_append_single_of_some _ _ _ _ _ hl2]
        · intro d
          rw [perChargeInit_lookup days d]
          by_cases hd : d ∈ days
          · rw [if_pos hd, if_pos hd,
              cellAcc_of_label_not_mem processed _ d ((hnone _).mp hov)]
          · rw [if_neg hd, if_neg hd]
      · exact ⟨st.overview, pc, by simp [alSetdefault, hov], fun l _ => rfl,
          hsome _ _ hov⟩
    have hpd : alGet? pc1 e.entry_date =
        some (cellAcc processed e.charge_code_label e.entry_date) := by
      rw [hpc e.entry_date, if_pos hde]
    have ht : alGet? st.day_totals e.entry_date = some (dayHours processed e.entry_date) := by
      rw [hdt e.entry_date, if_pos hde]
    rw [aggLoop_cons days e rest st ov1 pc1 _ _ hsd hpd ht]
    have hinv1 : aggInv days (processed ++ [e])
        { overview := alInsert ov1 e.charge_code_label
            (alInsert pc1 e.entry_date
              { hours := (cellAcc processed e.charge_code_label e.entry_date).hours +
                  (e.duration_minutes : ℚ) / 60
                comments := (cellAcc processed e.charge_code_label e.entry_date).comments ++
                  [e.activity_text]
                details := (cellAcc processed e.charge_code_label e.entry_date).details ++
                  [{ start_time := e.start_time, end_time := e.end_time,
                     activity_text := e.activity_text }] })
          day_totals := alInsert st.day_totals e.entry_date
            (dayHours processed e.entry_date + (e.duration_minutes : ℚ) / 60) } := by
      refine ⟨?_, ?_, ?_⟩
      · intro l
        by_cases hl : l = e.charge_code_label
        · rw [hl, alGet?_insert_self]
          simp
        · rw [alGet?_insert_ne _ _ _ _ hl, hov1 l hl, hnone l]
          have hmemiff : l ∈ (processed ++ [e]).map (fun x => x.charge_code_label) ↔
              l ∈ processed.map (fun x => x.charge_code_label) := by
            simp [hl]
          exact (not_congr hmemiff).symm
      · intro l pc' hpc'
        by_cases hl : l = e.charge_code_label
        · subst hl
          rw [alGet?_insert_self] at hpc'
          rw [← Option.some.inj hpc']
          intro d
          by_cases hd : d = e.entry_date
          · rw [hd, alGet?_insert_self, if_pos hde, cellAcc_append, if_pos ⟨rfl, rfl⟩]
          · have hpred : ¬(e.charge_code_label = e.charge_code_label ∧ e.entry_date = d) :=
              fun hc => hd hc.2.symm
            rw [alGet?_insert_ne _ _ _ _ hd, hpc d, cellAcc_append, if_neg hpred]
        · rw [alGet?_insert_ne _ _ _ _ hl, hov1 l hl] at hpc'
          intro d
          have hpred : ¬(e.charge_code_label = l ∧ e.entry_date = d) :=
            fun hc => hl hc.1.symm
          rw [hsome l pc' hpc' d, cellAcc_append, if_neg hpred]
      · intro d
        by_cases hd : d = e.entry_date
        · rw [hd, alGet?_insert_self, if_pos hde, dayHours_append, if_pos rfl]
        · have hpred : ¬(e.entry_date = d) := fun hc => hd hc.symm
          rw [alGet?_insert_ne _ _ _ _ hd, hdt d, dayHours_append, if_neg hpred]
    obtain ⟨st', hok, hinv'⟩ := ih (processed ++ [e]) _ hdays' hinv1
    refine ⟨st', hok, ?_⟩
    rwa [List.append_assoc, List.singleton_append] at hinv'

theorem overviewCells_lookup (days : List String) (per_charge : List (String × DayCell))
    (d : String) :
    alGet? (overviewCells days per_charge) d =
      if d ∈ days then some (roundCell ((alGet? per_charge d).getD emptyDayCell))
      else none := by
  unfold overviewCells
  rw [alGet?_foldl_insert
    (fun day => roundCell ((alGet? per_charge day).getD emptyDayCell)) days [] d]
  by_cases hd : d ∈ days
  · rw [if_pos hd, if_pos hd]
  · rw [if_neg hd, if_neg hd]
    rfl

theorem alGet?_map_value {α β γ : Type} [DecidableEq α] (l : List (α × β)) (f : β → γ)
    (k : α) :
    alGet? (l.map (fun p => (p.1, f p.2))) k = (alGet? l k).map f := by
  induction l with
  | nil => rfl
  | cons p rest ih =>
    by_cases hk : k = p.1
    · simp [alGet?, hk]
    · simp [alGet?, hk, ih]

/-- Running `build_week_overview` on in-range entries: the loop succeeds with
an invariant-satisfying state, and the result is assembled from that state
exactly as on src/app.py lines 797-813. -/
theorem build_week_overview_ok (entries : List EntryDTO) (week_start week_end : Int)
    (hin : ∀ e ∈ entries, e.entry_date ∈ weekDays week_start) :
    ∃ st, aggLoop (weekDays week_start) entries
        { overview := [], day_totals := dayTotalsInit (weekDays week_start) } = .ok st ∧
      aggInv (weekDays week_start) entries st ∧
      build_week_overview entries week_start week_end = .ok
        { days := weekDays week_start
          rows := overviewRows (weekDays week_start) st.overview
          day_totals := st.day_totals.map (fun p => (p.1, round2 p.2))
          week_total := round2 (((st.day_totals.map (fun p => (p.1, round2 p.2))).map
            (fun p => p.2)).sum) } := by
  have hinv0 : aggInv (weekDays week_start) []
      { overview := [], day_totals := dayTotalsInit (weekDays week_start) } := by
    refine ⟨?_, ?_, ?_⟩
    · intro l
      dsimp only
      simp [alGet?]
    · intro l pc hpc
      dsimp only at hpc
      simp [alGet?] at hpc
    · intro d
      dsimp only
      unfold dayTotalsInit
      rw [alGet?_foldl_insert (fun _ => (0 : ℚ)) (weekDays week_start) [] d]
      by_cases hd : d ∈ weekDays week_start
      · rw [if_pos hd, if_pos hd]
        rfl
      · rw [if_neg hd, if_neg hd]
        rfl
  obtain ⟨st, hok, hinv⟩ :=
    aggLoop_invariant (weekDays week_start) entries [] _ hin hinv0
  refine ⟨st, hok, by simpa using hinv, ?_⟩
  unfold build_week_overview
  rw [hok]

theorem mkRow_cells (days : List String) (label : String)
    (per_charge : List (String × DayCell)) :
    (mkRow days label per_charge).cells = overviewCells days per_charge := rfl

theorem mkRow_label (days : List String) (label : String)
    (per_charge : List (String × DayCell)) :
    (mkRow days label per_charge).label = label := rfl

theorem mkRow_total (days : List String) (label : String)
    (per_charge : List (String × DayCell)) :
    (mkRow days label per_charge).total =
      round2 (((overviewCells days per_charge).map (fun c => c.2.hours)).sum) := rfl

/-- Claim C7: `build_week_overview` accumulates into the cell keyed by
(charge-code label, entry date) the full-precision sum of
`duration_minutes / 60` over the entries mapping to that cell (rounded once
for presentation) and appends their activity texts in input order. -/
theorem weekly_cell_accumulation (entries : List EntryDTO) (week_start week_end : Int)
    (hin : ∀ e ∈ entries, e.entry_date ∈ weekDays week_start)
    (label day : String)
    (hlabel : label ∈ entries.map (fun e => e.charge_code_label))
    (hday : day ∈ weekDays week_start) :
    ∃ o row, build_week_overview entries week_start week_end = .ok o ∧
      row ∈ o.rows ∧ row.label = label ∧
      alGet? row.cells day = some
        { hours := round2 (cellHours entries label day)
          comments := cellComments entries label day
          details := cellDetails entries label day } := by
  obtain ⟨st, hok, ⟨hnone, hsome, hdt⟩, hbuild⟩ :=
    build_week_overview_ok entries week_start week_end hin
  obtain ⟨pc, hpc⟩ : ∃ pc, alGet? st.overview label = some pc := by
    rcases h : alGet? st.overview label with _ | pc
    · exact absurd hlabel ((hnone label).mp h)
    · exact ⟨pc, rfl⟩
  refine ⟨_, mkRow (weekDays week_start) label pc, hbuild, ?_, rfl, ?_⟩
  · show mkRow (weekDays week_start) label pc ∈
      overviewRows (weekDays week_start) st.overview
    unfold overviewRows
    apply List.mem_filterMap.mpr
    refine ⟨label, (mem_sortStrings _ _).mpr (mem_keys_of_alGet?_eq_some _ _ _ hpc), ?_⟩
    rw [hpc]
    rfl
  · rw [mkRow_cells, overviewCells_lookup, if_pos hday, hsome label pc hpc day,
      if_pos hday]
    rfl

/-- A 45-minute entry, first of two on the same charge code and day. -/
def aggEntryA : EntryDTO :=
  { id := 20, charge_code_id := 1, charge_code_label := "P-1 Demo",
    entry_date := "0001-01-01", start_time := "09:00", end_time := "09:45",
    duration_minutes := 45, activity_text := "first task" }

/-- A 75-minute entry, second of two on the same charge code and day. -/
def aggEntryB : EntryDTO :=
  { id := 21, charge_code_id := 1, charge_code_label := "P-1 Demo",
    entry_date := "0001-01-01", start_time := "10:00", end_time := "11:15",
    duration_minutes := 75, activity_text := "second task" }

/-- Witness for C7: two entries of 45 and 75 minutes on the same charge code
and day produce a cell with hours 2.0 and a 2-element comment list in input
order. -/
theorem weekly_cell_accumulation_witness :
    ((∀ e ∈ [aggEntryA, aggEntryB], e.entry_date ∈ weekDays 1) ∧
      "P-1 Demo" ∈ [aggEntryA, aggEntryB].map (fun e => e.charge_code_label) ∧
      "0001-01-01" ∈ weekDays 1) ∧
    (∃ o row, build_week_overview [aggEntryA, aggEntryB] 1 7 = .ok o ∧
      row ∈ o.rows ∧ row.label = "P-1 Demo" ∧
      alGet? row.cells "0001-01-01" = some
        { hours := round2 (cellHours [aggEntryA, aggEntryB] "P-1 Demo" "0001-01-01")
          comments := cellComments [aggEntryA, aggEntryB] "P-1 Demo" "0001-01-01"
          details := cellDetails [aggEntryA, aggEntryB] "P-1 Demo" "0001-01-01" }) ∧
    round2 (cellHours [aggEntryA, aggEntryB] "P-1 Demo" "0001-01-01") = 2 ∧
    cellComments [aggEntryA, aggEntryB] "P-1 Demo" "0001-01-01" =
      ["first task", "second task"] :=
  ⟨⟨by decide, by decide, by decide⟩,
    weekly_cell_accumulation [aggEntryA, aggEntryB] 1 7 (by decide) "P-1 Demo" "0001-01-01"
      (by decide) (by decide),
    by norm_num [cellHours, aggEntryA, aggEntryB, round2, rhe],
    by decide⟩

/-- Claim C1 (amended): in the produced overview every cell hour value and
every day total is `round2` of its full-precision (unrounded) accumulator,
but each row total is `round2` of the sum of the already-rounded cell values
(src/app.py line 808 sums `cell["hours"]`, rounded on line 804), and the week
total is `round2` of the sum of the already-rounded day totals (line 812 sums
the `day_totals` dict rounded on line 811). -/
theorem weekly_rounding_structure (entries : List EntryDTO) (week_start week_end : Int)
    (hin : ∀ e ∈ entries, e.entry_date ∈ weekDays week_start) :
    ∃ o, build_week_overview entries week_start week_end = .ok o ∧
      (∀ row ∈ o.rows,
        (∀ day ∈ o.days, alGet? row.cells day = some
          { hours := round2 (cellHours entries row.label day)
            comments := cellComments entries row.label day
            details := cellDetails entries row.label day }) ∧
        row.total = round2 ((row.cells.map (fun c => c.2.hours)).sum)) ∧
      (∀ day ∈ o.days, alGet? o.day_totals day = some (round2 (dayHours entries day))) ∧
      o.week_total = round2 ((o.day_totals.map (fun p => p.2)).sum) := by
  obtain ⟨st, hok, ⟨hnone, hsome, hdt⟩, hbuild⟩ :=
    build_week_overview_ok entries week_start week_end hin
  refine ⟨_, hbuild, ?_, ?_, ?_⟩
  · intro row hrow
    replace hrow : row ∈ overviewRows (weekDays week_start) st.overview := hrow
    unfold overviewRows at hrow
    obtain ⟨lb, _hlb, hmap⟩ := List.mem_filterMap.mp hrow
    rcases hpc : alGet? st.overview lb with _ | pc
    · rw [hpc] at hmap
      cases hmap
    · rw [hpc] at hmap
      have hroweq : row = mkRow (weekDays week_start) lb pc := (Option.some.inj hmap).symm
      subst hroweq
      constructor
      · intro day hday
        have hday' : day ∈ weekDays week_start := hday
        rw [mkRow_cells, overviewCells_lookup, if_pos hday',
          hsome lb pc hpc day, if_pos hday']
        rfl
      · rw [mkRow_total, mkRow_cells]
  · intro day hday
    have hday' : day ∈ weekDays week_start := hday
    have : alGet? (st.day_totals.map (fun p => (p.1, round2 p.2))) day =
        (alGet? st.day_totals day).map round2 := alGet?_map_value st.day_totals round2 day
    dsimp only
    rw [this, hdt day, if_pos hday']
    rfl
  · rfl

/-- Witness for C1's amended statement on the two 45/75-minute entries. -/
theorem weekly_rounding_structure_witness :
    (∀ e ∈ [aggEntryA, aggEntryB], e.entry_date ∈ weekDays 1) ∧
    (∃ o, build_week_overview [aggEntryA, aggEntryB] 1 7 = .ok o ∧
      (∀ row ∈ o.rows,
        (∀ day ∈ o.days, alGet? row.cells day = some
          { hours := round2 (cellHours [aggEntryA, aggEntryB] row.label day)
            comments := cellComments [aggEntryA, aggEntryB] row.label day
            details := cellDetails [aggEntryA, aggEntryB] row.label day }) ∧
        row.total = round2 ((row.cells.map (fun c => c.2.hours)).sum)) ∧
      (∀ day ∈ o.days, alGet? o.day_totals day =
        some (round2 (dayHours [aggEntryA, aggEntryB] day))) ∧
      o.week_total = round2 ((o.day_totals.map (fun p => p.2)).sum)) :=
  ⟨by decide, weekly_rounding_structure [aggEntryA, aggEntryB] 1 7 (by decide)⟩

/-- A one-minute entry on the week's first day. -/
def minuteEntryA : EntryDTO :=
  { id := 30, charge_code_id := 1, charge_code_label := "A",
    entry_date := "0001-01-01", start_time := "09:00", end_time := "09:01",
    duration_minutes := 1, activity_text := "m1" }

/-- A one-minute entry on the week's second day, same charge code. -/
def minuteEntryB : EntryDTO :=
  { id := 31, charge_code_id := 1, charge_code_label := "A",
    entry_date := "0001-01-02", start_time := "09:00", end_time := "09:01",
    duration_minutes := 1, activity_text := "m2" }

/-- Counterexample to Claim C1 as stated: two one-minute entries on one charge
code across two days.  The unrounded row accumulator sum is 2/60 hours, whose
`round2` is 0.03; the unrounded day-total accumulator sum is likewise 2/60
with `round2` 0.03; but the code's row total and week total are both 0.04,
because they are computed from the already-rounded 0.02 cells and day totals.
So the row total and week total are not `round2` of unrounded accumulators. -/
theorem weekly_rounding_counterexample :
    (∀ e ∈ [minuteEntryA, minuteEntryB], e.entry_date ∈ weekDays 1) ∧
    ((build_week_overview [minuteEntryA, minuteEntryB] 1 7).map
        (fun o => (o.rows.map (fun r => (r.label, r.total)), o.week_total)) =
      .ok ([("A", 1/25)], 1/25)) ∧
    round2 (((weekDays 1).map
        (fun d => cellHours [minuteEntryA, minuteEntryB] "A" d)).sum) = 3/100 ∧
    round2 (((weekDays 1).map
        (fun d => dayHours [minuteEntryA, minuteEntryB] d)).sum) = 3/100 ∧
    (1 : ℚ)/25 ≠ 3/100 := by
  have hdays : weekDays 1 = ["0001-01-01", "0001-01-02", "0001-01-03", "0001-01-04",
      "0001-01-05", "0001-01-06", "0001-01-07"] := by decide
  have h1 : dayTotalsInit ["0001-01-01", "0001-01-02", "0001-01-03", "0001-01-04",
      "0001-01-05", "0001-01-06", "0001-01-07"] =
      [("0001-01-01", 0), ("0001-01-02", 0), ("0001-01-03", 0), ("0001-01-04", 0),
        ("0001-01-05", 0), ("0001-01-06", 0), ("0001-01-07", 0)] := by decide
  have h2 : perChargeInit ["0001-01-01", "0001-01-02", "0001-01-03", "0001-01-04",
      "0001-01-05", "0001-01-06", "0001-01-07"] =
      [("0001-01-01", emptyDayCell), ("0001-01-02", emptyDayCell),
        ("0001-01-03", emptyDayCell), ("0001-01-04", emptyDayCell),
        ("0001-01-05", emptyDayCell), ("0001-01-06", emptyDayCell),
        ("0001-01-07", emptyDayCell)] := by decide
  refine ⟨by decide, ?_, ?_, ?_, by norm_num⟩
  · unfold build_week_overview
    rw [hdays, h1]
    simp only [minuteEntryA, minuteEntryB, aggLoop, alSetdefault, alGet?, alInsert, h2,
      overviewRows, sortStrings, insertSorted, strLe, charListLe, mkRow_label, mkRow_total,
      mkRow_cells, overviewCells,
      roundCell, emptyDayCell, List.filter_cons, List.filter_nil, List.foldr_cons,
      List.foldr_nil, List.foldl_cons, List.foldl_nil, List.map_cons, List.map_nil,
      List.filterMap_cons, List.filterMap_nil, Option.getD, Option.map_some,
      Option.map_none, List.sum_cons, List.sum_nil, Except.map, String.reduceEq,
      reduceIte]
    simp [mkRow_label, mkRow_total, mkRow_cells, overviewCells, roundCell, alGet?,
      alInsert, Option.getD, emptyDayCell]
    norm_num [round2, rhe]
  · rw [hdays]
    simp only [cellHours, minuteEntryA, minuteEntryB, List.filter_cons, List.filter_nil,
      List.map_cons, List.map_nil, List.sum_cons, List.sum_nil, String.reduceEq,
      reduceIte, decide_eq_true_eq, decide_True, decide_False]
    norm_num [round2, rhe]
  · rw [hdays]
    simp only [dayHours, minuteEntryA, minuteEntryB, List.filter_cons, List.filter_nil,
      List.map_cons, List.map_nil, List.sum_cons, List.sum_nil, String.reduceEq,
      reduceIte, decide_eq_true_eq, decide_True, decide_False]
    norm_num [round2, rhe]

/-- Claim C8: on well-formed input (parsable start times; for the aggregator,
entry dates within the week), both `group_entries_for_calendar` and
`build_week_overview` are total: every error branch is unreachable and a
result is returned. -/
theorem projector_and_aggregator_total (entries : List EntryDTO)
    (color_lookup : Int → Option String) (window_start window_end : Int)
    (week_start week_end : Int) :
    ((∀ e ∈ entries, (parse_time_str e.start_time).isSome = true) →
      ∃ g, group_entries_for_calendar entries color_lookup window_start window_end = .ok g) ∧
    ((∀ e ∈ entries, e.entry_date ∈ weekDays week_start) →
      ∃ o, build_week_overview entries week_start week_end = .ok o) := by
  constructor
  · intro hparse
    have hparse' : ∀ e ∈ entries, (time_to_minutes e.start_time).isSome = true := by
      intro e he
      have := hparse e he
      unfold time_to_minutes
      rcases h : parse_time_str e.start_time with _ | t
      · rw [h] at this
        cases this
      · rfl
    obtain ⟨g, hok, _⟩ := group_entries_characterization entries color_lookup
      window_start window_end hparse'
    exact ⟨g, hok⟩
  · intro hin
    obtain ⟨st, _, _, hbuild⟩ := build_week_overview_ok entries week_start week_end hin
    exact ⟨_, hbuild⟩

/-- Witness for C8 on a single entry in the week of Thursday 2024-01-04
(ordinal 738889). -/
theorem projector_and_aggregator_total_witness :
    ((∀ e ∈ [sampleEntry], (parse_time_str e.start_time).isSome = true) ∧
      (∀ e ∈ [sampleEntry], e.entry_date ∈ weekDays 738889)) ∧
    ((∃ g, group_entries_for_calendar [sampleEntry] (fun _ => none) 420 1080 = .ok g) ∧
      (∃ o, build_week_overview [sampleEntry] 738889 738895 = .ok o)) :=
  ⟨⟨by decide, by decide⟩,
    (projector_and_aggregator_total [sampleEntry] (fun _ => none) 420 1080
        738889 738895).1 (by decide),
    (projector_and_aggregator_total [sampleEntry] (fun _ => none) 420 1080
        738889 738895).2 (by decide)⟩

/-! ### EntryPayloadNormalizer (src/app.py lines 635-694) -/

/-- Python `str.strip()` on a character list. -/
def pyStripChars (cs : List Char) : List Char :=
  ((cs.dropWhile Char.isWhitespace).reverse.dropWhile Char.isWhitespace).reverse

/-- Python `str.strip()`. -/
def pyStrip (s : String) : String := String.mk (pyStripChars s.data)

/-- Python `str(n)` on an int. -/
def pyStr (n : Int) : String := String.mk (intToChars n)

/-- Python `int(s)` on a stripped string, `none` for the `ValueError`. -/
def pyInt (s : String) : Option Int := pyIntParse s.data

/-- A `datetime.date`, as produced by `strptime(value, "%Y-%m-%d").date()`. -/
structure PyDate where
  year : Nat
  month : Nat
  day : Nat
deriving DecidableEq

def isLeapYear (y : Nat) : Bool := (y % 4 == 0 && y % 100 != 0) || y % 400 == 0

def daysInMonth (y m : Nat) : Nat :=
  if m = 2 then (if isLeapYear y then 29 else 28)
  else if m = 4 ∨ m = 6 ∨ m = 9 ∨ m = 11 then 30
  else 31

/-- `datetime.strptime(value, "%Y-%m-%d").date()`: `%Y` matches exactly four
digits, `%m` and `%d` one or two, separated by `'-'` with nothing left over;
the parse succeeds exactly when the triple is a valid proleptic-Gregorian
date with year at least 1 (Python's `MINYEAR`). -/
def pyDateParse (value : String) : Option PyDate :=
  match splitOnChar '-' value.data with
  | [ys, ms, ds] =>
    match parseField4 ys, parseField12 ms, parseField12 ds with
    | some y, some m, some d =>
      if 1 ≤ y ∧ 1 ≤ m ∧ m ≤ 12 ∧ 1 ≤ d ∧ d ≤ daysInMonth y m then some ⟨y, m, d⟩
      else none
    | _, _, _ => none
  | _ => none

/-- An inbound create/update payload: the five fields
`prepare_time_entry_payload` reads.  `none` models both an absent key and an
explicit null; values are modelled as strings (the shapes the form and JSON
routes supply for these fields). -/
structure Payload where
  charge_code_id : Option String
  entry_date : Option String
  start_time : Option String
  end_time : Option String
  activity_text : Option String

/-- The `_value` helper (src/app.py lines 638-642): a present, non-blank
payload value is stripped and used; otherwise the default. -/
def pyValueOr (v : Option String) (default : Option String) : Option String :=
  match v with
  | none => default
  | some s => if pyStrip s = "" then default else some (pyStrip s)

/-- The five distinct error returns of `prepare_time_entry_payload`, by their
exact message strings: `missingFields` is "Missing required fields." (line
666), `invalidPayload` is "Invalid payload." (line 673, the caught
`TypeError`/`ValueError`), `ordering` is "Start time must be before end
time." (line 676), `activityRequired` is "Activity text is required." (line
681), `invalidChargeCode` is "Invalid charge code." (line 683). -/
inductive PrepError where
  | missingFields
  | invalidPayload
  | ordering
  | activityRequired
  | invalidChargeCode
deriving DecidableEq

/-- The `cleaned` dict returned on success (src/app.py lines 686-693). -/
structure CleanedEntry where
  charge_code_id : Int
  entry_date : PyDate
  start_time : PyTime
  end_time : PyTime
  duration_minutes : Int
  activity_text : String
deriving DecidableEq

/-- `prepare_time_entry_payload` (src/app.py line 635).  The
`owns_charge_code` storage collaborator is passed as the function `owns`. -/
def prepare_time_entry_payload (owns : Int → Int → Bool) (user_id : Int)
    (payload : Payload) (existing : Option EntryDTO) :
    Except PrepError CleanedEntry :=
  let charge_code_raw := pyValueOr payload.charge_code_id
    (existing.map (fun e => pyStr e.charge_code_id))
  let entry_date_raw := pyValueOr payload.entry_date (existing.map (fun e => e.entry_date))
  let start_time_raw := pyValueOr payload.start_time (existing.map (fun e => e.start_time))
  let end_time_raw := pyValueOr payload.end_time (existing.map (fun e => e.end_time))
  let activity_text0 := pyValueOr payload.activity_text
    (some (match existing with | some e => e.activity_text | none => ""))
  match charge_code_raw, entry_date_raw, start_time_raw, end_time_raw with
  | some ccs, some eds, some sts, some ets =>
    match pyInt ccs, pyDateParse eds, parse_time_str sts, parse_time_str ets with
    | some charge_code_id, some entry_date, some start_time, some end_time =>
      if pyTimeGe start_time end_time then .error .ordering
      else
        let activity_text := pyStrip (activity_text0.getD "")
        if activity_text = "" then .error .activityRequired
        else if !owns user_id charge_code_id then .error .invalidChargeCode
        else .ok { charge_code_id := charge_code_id, entry_date := entry_date,
                   start_time := start_time, end_time := end_time,
                   duration_minutes := difference_in_minutes start_time end_time,
                   activity_text := activity_text }
    | _, _, _, _ => .error .invalidPayload
  | _, _, _, _ => .error .missingFields

/-- A payload field that is absent or blank after stripping. -/
def isBlankOpt (v : Option String) : Bool :=
  match v with
  | none => true
  | some s => pyStrip s == ""

theorem pyValueOr_of_blank (v : Option String) (d : Option String)
    (h : isBlankOpt v = true) : pyValueOr v d = d := by
  cases v with
  | none => rfl
  | some s =>
    simp only [isBlankOpt, beq_iff_eq] at h
    simp [pyValueOr, h]

theorem digitChar_isDigit : ∀ d, d < 10 → (Nat.digitChar d).isDigit = true := by decide

theorem digVal_digitChar : ∀ d, d < 10 → digVal (Nat.digitChar d) = d := by decide

theorem natToCharsAux_spec : ∀ fuel n, n < 10 ^ (fuel + 1) →
    natToCharsAux (fuel + 1) n ≠ [] ∧
    (∀ c ∈ natToCharsAux (fuel + 1) n, c.isDigit = true) ∧
    ∀ a, (natToCharsAux (fuel + 1) n).foldl (fun x ch => x * 10 + digVal ch) a =
      a * 10 ^ (natToCharsAux (fuel + 1) n).length + n := by
  intro fuel
  induction fuel with
  | zero =>
    intro n hn
    have h10 : n < 10 := by simpa using hn
    refine ⟨by simp [natToCharsAux, h10], ?_, ?_⟩
    · intro c hc
      simp only [natToCharsAux, h10, if_pos, List.mem_singleton] at hc
      rw [hc]
      exact digitChar_isDigit n h10
    · intro a
      simp [natToCharsAux, h10, digVal_digitChar n h10]
  | succ fuel ih =>
    intro n hn
    by_cases h10 : n < 10
    · refine ⟨by simp [natToCharsAux, h10], ?_, ?_⟩
      · intro c hc
        simp only [natToCharsAux, h10, if_pos, List.mem_singleton] at hc
        rw [hc]
        exact digitChar_isDigit n h10
      · intro a
        simp [natToCharsAux, h10, digVal_digitChar n h10]
    · have hdiv : n / 10 < 10 ^ (fuel + 1) := by
        rw [Nat.div_lt_iff_lt_mul (by norm_num)]
        calc n < 10 ^ (fuel + 1 + 1) := hn
        _ = 10 ^ (fuel + 1) * 10 := by ring
      obtain ⟨hne, hdig, hfold⟩ := ih (n / 10) hdiv
      have hunfold : natToCharsAux (fuel + 1 + 1) n =
          natToCharsAux (fuel + 1) (n / 10) ++ [Nat.digitChar (n % 10)] := by
        rw [natToCharsAux]
        simp [h10]
      refine ⟨by simp [hunfold], ?_, ?_⟩
      · intro c hc
        rw [hunfold, List.mem_append, List.mem_singleton] at hc
        rcases hc with hc | hc
        · exact hdig c hc
        · rw [hc]
          exact digitChar_isDigit (n % 10) (Nat.mod_lt n (by norm_num))
      · intro a
        rw [hunfold, List.foldl_append]
        simp only [List.foldl_cons, List.foldl_nil]
        rw [hfold a, List.length_append, List.length_singleton,
          digVal_digitChar (n % 10) (Nat.mod_lt n (by norm_num))]
        rw [pow_succ]
        have := Nat.div_add_mod n 10
        ring_nf
        omega

theorem natToChars_spec (n : Nat) :
    natToChars n ≠ [] ∧ (∀ c ∈ natToChars n, c.isDigit = true) ∧
    ∀ a, (natToChars n).foldl (fun x ch => x * 10 + digVal ch) a =
      a * 10 ^ (natToChars n).length + n := by
  have hlt : n < 10 ^ (n + 1) := by
    calc n < 2 ^ n := Nat.lt_two_pow n
    _ ≤ 10 ^ n := Nat.pow_le_pow_left (by norm_num) n
    _ ≤ 10 ^ (n + 1) := Nat.pow_le_pow_right (by norm_num) (Nat.le_succ n)
  exact natToCharsAux_spec n n hlt

theorem parseNatDigits_natToChars (n : Nat) :
    parseNatDigits (natToChars n) = some n := by
  obtain ⟨hne, hdig, hfold⟩ := natToChars_spec n
  unfold parseNatDigits
  rw [if_neg (by simpa using hne), if_pos (by rw [List.all_eq_true]; exact hdig)]
  rw [hfold 0]
  simp

theorem isDigit_ne_sign (c : Char) (h : c.isDigit = true) : c ≠ '-' ∧ c ≠ '+' := by
  constructor <;> rintro rfl <;> simp [Char.isDigit] at h

theorem pyIntParse_intToChars (n : Int) : pyIntParse (intToChars n) = some n := by
  unfold intToChars
  by_cases hn : n < 0
  · rw [if_pos hn]
    have habs : -((n.natAbs : Int)) = n := by omega
    simp [pyIntParse, parseNatDigits_natToChars, habs]
    rw [abs_of_neg hn, neg_neg]
  · rw [if_neg hn]
    obtain ⟨hne, hdig, _⟩ := natToChars_spec n.toNat
    rcases hl : natToChars n.toNat with _ | ⟨c, rest⟩
    · exact absurd hl hne
    · have hcd : c.isDigit = true := hdig c (by rw [hl]; exact List.mem_cons_self c rest)
      obtain ⟨hc1, hc2⟩ := isDigit_ne_sign c hcd
      have htn : ((n.toNat : Int)) = n := by omega
      simp only [pyIntParse, if_neg hc1, if_neg hc2]
      rw [← hl, parseNatDigits_natToChars]
      simp [htn]

theorem pyInt_pyStr (n : Int) : pyInt (pyStr n) = some n := by
  unfold pyInt pyStr
  exact pyIntParse_intToChars n

theorem not_pyTimeGe_of_lt (a b : PyTime) (h : pyTimeLt a b) : ¬ pyTimeGe a b := by
  unfold pyTimeLt at h
  unfold pyTimeGe
  rcases h with h | ⟨h1, h2⟩
  · rintro (hc | ⟨hc1, hc2⟩) <;> omega
  · rintro (hc | ⟨hc1, hc2⟩) <;> omega

/-- Claim C6: whenever the four required fields resolve and parse, a parsed
start time at or after the parsed end time makes `prepare_time_entry_payload`
fail with the ordering error ("Start time must be before end time."),
whatever the activity text or charge-code ownership. -/
theorem normalize_rejects_unordered_times (owns : Int → Int → Bool) (user_id : Int)
    (payload : Payload) (existing : Option EntryDTO)
    (ccs eds sts ets : String) (charge_code_id : Int) (entry_date : PyDate)
    (start_time end_time : PyTime)
    (hcc : pyValueOr payload.charge_code_id
      (existing.map (fun e => pyStr e.charge_code_id)) = some ccs)
    (hed : pyValueOr payload.entry_date (existing.map (fun e => e.entry_date)) = some eds)
    (hst : pyValueOr payload.start_time (existing.map (fun e => e.start_time)) = some sts)
    (het : pyValueOr payload.end_time (existing.map (fun e => e.end_time)) = some ets)
    (hpcc : pyInt ccs = some charge_code_id)
    (hped : pyDateParse eds = some entry_date)
    (hpst : parse_time_str sts = some start_time)
    (hpet : parse_time_str ets = some end_time)
    (hge : pyTimeGe start_time end_time) :
    prepare_time_entry_payload owns user_id payload existing = .error .ordering := by
  unfold prepare_time_entry_payload
  simp only [hcc, hed, hst, het, hpcc, hped, hpst, hpet]
  rw [if_pos hge]

/-- Witness for C6: `start_time = end_time = "10:00"` is rejected with the
ordering error. -/
theorem normalize_rejects_unordered_times_witness :
    (pyValueOr (some "1") none = some "1" ∧
      pyValueOr (some "2024-01-05") none = some "2024-01-05" ∧
      pyValueOr (some "10:00") none = some "10:00" ∧
      pyValueOr (some "10:00") none = some "10:00" ∧
      pyInt "1" = some 1 ∧
      pyDateParse "2024-01-05" = some ⟨2024, 1, 5⟩ ∧
      parse_time_str "10:00" = some ⟨10, 0⟩ ∧
      pyTimeGe ⟨10, 0⟩ ⟨10, 0⟩) ∧
    prepare_time_entry_payload (fun _ _ => true) 1
      { charge_code_id := some "1", entry_date := some "2024-01-05",
        start_time := some "10:00", end_time := some "10:00",
        activity_text := some "anything" } none = .error .ordering :=
  ⟨⟨by decide, by decide, by decide, by decide, by decide, by decide, by decide, by decide⟩,
    normalize_rejects_unordered_times (fun _ _ => true) 1
      { charge_code_id := some "1", entry_date := some "2024-01-05",
        start_time := some "10:00", end_time := some "10:00",
        activity_text := some "anything" } none
      "1" "2024-01-05" "10:00" "10:00" 1 ⟨2024, 1, 5⟩ ⟨10, 0⟩ ⟨10, 0⟩
      (by decide) (by decide) (by decide) (by decide) (by decide) (by decide)
      (by decide) (by decide) (by decide)⟩

/-- Claim C2: for a well-formed existing record (already-stripped non-blank
activity text, parsable date and times, start before end, stored duration
equal to end minus start, charge code owned by the user), normalizing a
payload whose every field is absent or blank succeeds and returns the
existing record's charge code, date, times and activity text, with
`duration_minutes` recomputed from the times and equal to the stored one. -/
theorem normalize_empty_payload_falls_back (owns : Int → Int → Bool) (user_id : Int)
    (payload : Payload) (e : EntryDTO) (d0 : PyDate) (st0 et0 : PyTime)
    (hb1 : isBlankOpt payload.charge_code_id = true)
    (hb2 : isBlankOpt payload.entry_date = true)
    (hb3 : isBlankOpt payload.start_time = true)
    (hb4 : isBlankOpt payload.end_time = true)
    (hb5 : isBlankOpt payload.activity_text = true)
    (hdate : pyDateParse e.entry_date = some d0)
    (hst : parse_time_str e.start_time = some st0)
    (het : parse_time_str e.end_time = some et0)
    (hlt : pyTimeLt st0 et0)
    (hdur : e.duration_minutes = difference_in_minutes st0 et0)
    (hact_trim : pyStrip e.activity_text = e.activity_text)
    (hact_ne : e.activity_text ≠ "")
    (howns : owns user_id e.charge_code_id = true) :
    prepare_time_entry_payload owns user_id payload (some e) = .ok
      { charge_code_id := e.charge_code_id, entry_date := d0,
        start_time := st0, end_time := et0,
        duration_minutes := e.duration_minutes, activity_text := e.activity_text } := by
  unfold prepare_time_entry_payload
  rw [pyValueOr_of_blank _ _ hb1, pyValueOr_of_blank _ _ hb2, pyValueOr_of_blank _ _ hb3,
    pyValueOr_of_blank _ _ hb4, pyValueOr_of_blank _ _ hb5]
  simp only [Option.map_some']
  simp only [pyInt_pyStr, hdate, hst, het]
  rw [if_neg (not_pyTimeGe_of_lt st0 et0 hlt)]
  simp only [Option.getD_some, hact_trim]
  rw [if_neg hact_ne, howns]
  simp only [Bool.not_true, Bool.false_eq_true, if_false]
  rw [hdur]

/-- A well-formed existing entry used by the C2 witness. -/
def existingEntry : EntryDTO :=
  { id := 5, charge_code_id := 7, charge_code_label := "P-7 Ops",
    entry_date := "2024-01-05", start_time := "09:00", end_time := "10:30",
    duration_minutes := 90, activity_text := "review notes" }

/-- Witness for C2: an all-absent payload against a concrete existing entry. -/
theorem normalize_empty_payload_falls_back_witness :
    (isBlankOpt none = true ∧
      pyDateParse existingEntry.entry_date = some ⟨2024, 1, 5⟩ ∧
      parse_time_str existingEntry.start_time = some ⟨9, 0⟩ ∧
      parse_time_str existingEntry.end_time = some ⟨10, 30⟩ ∧
      pyTimeLt ⟨9, 0⟩ ⟨10, 30⟩ ∧
      existingEntry.duration_minutes = difference_in_minutes ⟨9, 0⟩ ⟨10, 30⟩ ∧
      pyStrip existingEntry.activity_text = existingEntry.activity_text ∧
      existingEntry.activity_text ≠ "" ∧
      (fun _ _ => true : Int → Int → Bool) 1 existingEntry.charge_code_id = true) ∧
    prepare_time_entry_payload (fun _ _ => true) 1
      { charge_code_id := none, entry_date := none, start_time := none,
        end_time := none, activity_text := none } (some existingEntry) = .ok
      { charge_code_id := existingEntry.charge_code_id, entry_date := ⟨2024, 1, 5⟩,
        start_time := ⟨9, 0⟩, end_time := ⟨10, 30⟩,
        duration_minutes := existingEntry.duration_minutes,
        activity_text := existingEntry.activity_text } :=
  ⟨⟨by decide, by decide, by decide, by decide, by decide, by decide, by decide,
      by decide, by decide⟩,
    normalize_empty_payload_falls_back (fun _ _ => true) 1
      { charge_code_id := none, entry_date := none, start_time := none,
        end_time := none, activity_text := none } existingEntry ⟨2024, 1, 5⟩ ⟨9, 0⟩ ⟨10, 30⟩
      (by decide) (by decide) (by decide) (by decide) (by decide) (by decide)
      (by decide) (by decide) (by decide) (by decide) (by decide) (by decide)
      (by decide)⟩
